import Mathlib

/-!
Shallow embedding of the expense-approval workflow engine
(expenses/services.py together with the data model of expenses/models.py).

Users are identified by natural-number ids. Wall-clock timestamps
(timezone.now()) are abstracted as a natural number passed explicitly, so
every operation is a pure function on an explicit state. Python's truthiness
on optional references is rendered with Option, and the true division of
Python's / operator is rendered as exact division in the rationals.
-/

/-- Status values of ApprovalStep.StepStatus. -/
inductive StepStatus where
  | PENDING
  | APPROVED
  | REJECTED
  | SKIPPED
deriving DecidableEq, Repr

/-- Status values of Expense.Status. -/
inductive ExpenseStatus where
  | DRAFT
  | PENDING
  | APPROVED
  | REJECTED
deriving DecidableEq, Repr

/-- Role names of ApproverRole. -/
inductive ApproverRole where
  | MANAGER
  | FINANCE
  | DIRECTOR
  | CFO
deriving DecidableEq, Repr

/-- Modes of ApprovalPolicy.Mode. -/
inductive Mode where
  | PERCENTAGE
  | SPECIFIC
  | PERCENTAGE_OR_SPECIFIC
deriving DecidableEq, Repr

/-- One row of ApprovalStep: sequence, approver id, status, comment,
optional acted-at timestamp. -/
structure ApprovalStep where
  sequence : Nat
  approver : Nat
  status : StepStatus
  comment : String
  acted_at : Option Nat
deriving DecidableEq, Repr

/-- One row of ApprovalPolicy: mode, percentage_required, optional
specific approver id. -/
structure ApprovalPolicy where
  mode : Mode
  percentage_required : Nat
  specific_approver : Option Nat
deriving DecidableEq, Repr

/-- One configured ApproverStage: ordering sequence, optional role name,
optional specific user. -/
structure ApproverStage where
  sequence : Nat
  role_name : Option ApproverRole
  specific_user : Option Nat
deriving DecidableEq, Repr

/-- One RoleAssignment row: role name mapped to a user id (unique per
company and role). -/
structure RoleAssignment where
  role_name : ApproverRole
  user : Nat
deriving DecidableEq, Repr

/-- Company configuration consumed by the workflow engine: the
manager-first flag, the configured stages, the role assignments and the
optional approval policy (OneToOne, absent when DoesNotExist). -/
structure Company where
  is_manager_first_approver : Bool
  approver_stages : List ApproverStage
  role_assignments : List RoleAssignment
  approval_policy : Option ApprovalPolicy
deriving DecidableEq, Repr

/-- A submitting user: id and optional manager id. -/
structure User where
  id : Nat
  manager : Option Nat
deriving DecidableEq, Repr

/-- The part of an Expense the workflow engine reads and writes: its
status, its ordered steps, and its company's optional policy. -/
structure Expense where
  status : ExpenseStatus
  steps : List ApprovalStep
  policy : Option ApprovalPolicy
deriving DecidableEq, Repr

/-- Embedding of resolve_stage_assignee: specific user wins, else the
MANAGER role resolves to the submitter's manager, other roles through the
company role-assignment table, else no assignee. -/
def resolve_stage_assignee (company : Company) (stage : ApproverStage) (submitter : User) :
    Option Nat :=
  match stage.specific_user with
  | some u => some u
  | none =>
    match stage.role_name with
    | some role =>
      if role = ApproverRole.MANAGER then
        submitter.manager
      else
        (company.role_assignments.find? (fun ra => ra.role_name == role)).map (fun ra => ra.user)
    | none => none

/-- Insertion of a stage into a list sorted by ascending sequence; used to
render the order_by on stage sequence. -/
def insertBySeq (s : ApproverStage) : List ApproverStage → List ApproverStage
  | [] => [s]
  | t :: ts => if t.sequence ≤ s.sequence then t :: insertBySeq s ts else s :: t :: ts

/-- Sorting of the configured stages by ascending sequence, the order_by
of build_approval_steps_for_expense. -/
def sortStages : List ApproverStage → List ApproverStage
  | [] => []
  | s :: ss => insertBySeq s (sortStages ss)

/-- The resolved approver ids of the chain, in order: the manager first
when configured and present, then each configured stage (in stage-sequence
order) that resolves to an assignee. -/
def chainAssignees (company : Company) (submitter : User) : List Nat :=
  (if company.is_manager_first_approver then
    match submitter.manager with
    | some m => [m]
    | none => []
  else []) ++
  (sortStages company.approver_stages).filterMap
    (fun stage => resolve_stage_assignee company stage submitter)

/-- Creation of one step per assignee with the running sequence counter,
starting at the given value; each step starts PENDING with empty comment. -/
def mkSteps : Nat → List Nat → List ApprovalStep
  | _, [] => []
  | seq, a :: rest =>
    { sequence := seq
      approver := a
      status := StepStatus.PENDING
      comment := ""
      acted_at := none } :: mkSteps (seq + 1) rest

/-- Embedding of build_approval_steps_for_expense: materialize the step
chain at submission and set the expense status (APPROVED when no steps
were created, PENDING otherwise). -/
def build_approval_steps_for_expense (company : Company) (submitter : User) : Expense :=
  let steps := mkSteps 1 (chainAssignees company submitter)
  { status := if steps.isEmpty then ExpenseStatus.APPROVED else ExpenseStatus.PENDING
    steps := steps
    policy := company.approval_policy }

/-- Count of steps whose status is APPROVED, the approved list's length in
evaluate_policy_and_maybe_finalize. -/
def approvedCount (steps : List ApprovalStep) : Nat :=
  (steps.filter (fun s => s.status == StepStatus.APPROVED)).length

/-- The specific-approver condition: the policy names a specific approver
and some step of that approver is APPROVED. -/
def specificApproverOk (policy : ApprovalPolicy) (steps : List ApprovalStep) : Bool :=
  match policy.specific_approver with
  | some sa => steps.any (fun s => s.approver == sa && s.status == StepStatus.APPROVED)
  | none => false

/-- The percentage condition exactly as computed by the source:
percentage_required positive, a nonempty chain, and
approved_count * 100 / total (Python true division, rendered in ℚ) at
least percentage_required. -/
def percentSatisfied (policy : ApprovalPolicy) (approved total : Nat) : Bool :=
  decide (0 < policy.percentage_required) && decide (0 < total) &&
  decide ((policy.percentage_required : ℚ) ≤ ((approved : ℚ) * 100) / (total : ℚ))

/-- The finalize_approved closure inside evaluate_policy_and_maybe_finalize:
every still-PENDING step becomes SKIPPED with an acted-at stamp, and the
expense becomes APPROVED. -/
def finalize_approved (e : Expense) (now : Nat) : Expense :=
  { e with
    steps := e.steps.map (fun s =>
      if s.status == StepStatus.PENDING then
        { s with status := StepStatus.SKIPPED, acted_at := some now }
      else s)
    status := ExpenseStatus.APPROVED }

/-- Embedding of evaluate_policy_and_maybe_finalize: no-op without a
policy or without steps; otherwise finalize when the condition of the
configured mode holds (the combined mode is the disjunction of the
specific-approver and percentage conditions). -/
def evaluate_policy_and_maybe_finalize (e : Expense) (now : Nat) : Expense :=
  match e.policy with
  | none => e
  | some policy =>
    if e.steps.isEmpty then e
    else
      if policy.mode == Mode.SPECIFIC && specificApproverOk policy e.steps then
        finalize_approved e now
      else if policy.mode == Mode.PERCENTAGE &&
          percentSatisfied policy (approvedCount e.steps) e.steps.length then
        finalize_approved e now
      else if policy.mode == Mode.PERCENTAGE_OR_SPECIFIC &&
          (specificApproverOk policy e.steps ||
           percentSatisfied policy (approvedCount e.steps) e.steps.length) then
        finalize_approved e now
      else e

/-- Enumeration of a step list with indices starting at n, used to address
the row a query selects. -/
def enumFrom : Nat → List ApprovalStep → List (Nat × ApprovalStep)
  | _, [] => []
  | n, s :: ss => (n, s) :: enumFrom (n + 1) ss

/-- Selection of the entry of minimal sequence, keeping the earlier entry
on ties; the head of an order_by("sequence") over the filtered rows. -/
def pickMinSeq (x : Nat × ApprovalStep) (xs : List (Nat × ApprovalStep)) :
    Nat × ApprovalStep :=
  xs.foldl (fun best y => if y.2.sequence < best.2.sequence then y else best) x

/-- The query steps.filter(approver=user, status=PENDING)
.order_by("sequence").first(): index and content of the acting user's
earliest PENDING step, when one exists. -/
def firstPendingOf (e : Expense) (u : Nat) : Option (Nat × ApprovalStep) :=
  match (enumFrom 0 e.steps).filter
      (fun p => p.2.approver == u && p.2.status == StepStatus.PENDING) with
  | [] => none
  | x :: xs => some (pickMinSeq x xs)

/-- Embedding of approve_step: requires a PENDING expense and a PENDING
step of the acting user; approves that step, runs the policy evaluator,
and on no remaining PENDING step approves the expense. -/
def approve_step (e : Expense) (user : Nat) (comment : String) (now : Nat) :
    Bool × Expense :=
  if e.status ≠ ExpenseStatus.PENDING then (false, e)
  else
    match firstPendingOf e user with
    | none => (false, e)
    | some (i, st) =>
      let st' := { st with
        status := StepStatus.APPROVED
        comment := comment
        acted_at := some now }
      let e1 := { e with steps := e.steps.set i st' }
      let e2 := evaluate_policy_and_maybe_finalize e1 now
      if e2.status = ExpenseStatus.APPROVED then (true, e2)
      else if e2.steps.any (fun s => s.status == StepStatus.PENDING) then (true, e2)
      else (true, { e2 with status := ExpenseStatus.APPROVED })

/-- Embedding of reject_expense: rejects the acting user's earliest
PENDING step, marks the expense REJECTED, and closes every remaining
PENDING step (REJECTED, since the expense status is not APPROVED),
appending the tagged comment fragment only when a comment was supplied. -/
def reject_expense (e : Expense) (user : Nat) (comment : String) (now : Nat) :
    Bool × Expense :=
  match firstPendingOf e user with
  | none => (false, e)
  | some (i, st) =>
    let st' := { st with
      status := StepStatus.REJECTED
      comment := comment
      acted_at := some now }
    let e1 := { e with steps := e.steps.set i st', status := ExpenseStatus.REJECTED }
    (true, { e1 with
      steps := e1.steps.map (fun s =>
        if s.status == StepStatus.PENDING then
          { s with
            status := if e1.status == ExpenseStatus.APPROVED then StepStatus.SKIPPED
                      else StepStatus.REJECTED
            comment := s.comment ++
              (if comment ≠ "" then "\n[Admin override] " ++ comment else "")
            acted_at := some now }
        else s) })

/-- Embedding of admin_override_expense: fails on a non-terminal target
status; otherwise closes every PENDING step (SKIPPED on approval, REJECTED
on rejection, with the tagged comment fragment when a comment was
supplied) and sets the expense status to the target unconditionally. -/
def admin_override_expense (e : Expense) (status : ExpenseStatus) (comment : String)
    (now : Nat) : Bool × Expense :=
  if status ≠ ExpenseStatus.APPROVED ∧ status ≠ ExpenseStatus.REJECTED then (false, e)
  else
    (true, { e with
      steps := e.steps.map (fun s =>
        if s.status == StepStatus.PENDING then
          { s with
            status := if status == ExpenseStatus.APPROVED then StepStatus.SKIPPED
                      else StepStatus.REJECTED
            comment := s.comment ++
              (if comment ≠ "" then "\n[Admin override] " ++ comment else "")
            acted_at := some now }
        else s)
      status := status })

/-! Lemmas about the enumeration and the minimal-sequence selection. -/

/-- Second components of an enumeration give back the original list. -/
lemma enumFrom_map_snd (l : List ApprovalStep) : ∀ n, (enumFrom n l).map Prod.snd = l := by
  induction l with
  | nil => intro n; rfl
  | cons s ss ih => intro n; simp [enumFrom, ih]

/-- Membership in an enumeration from 0 determines the list entry at that
index. -/
lemma mem_enumFrom {i : Nat} {st : ApprovalStep} :
    ∀ (l : List ApprovalStep) (n : Nat),
      (i, st) ∈ enumFrom n l → ∃ j, i = n + j ∧ l.get? j = some st := by
  intro l
  induction l with
  | nil => intro n h; simp [enumFrom] at h
  | cons t ts ih =>
    intro n h
    simp only [enumFrom, List.mem_cons] at h
    rcases h with h | h
    · refine ⟨0, ?_, ?_⟩
      · exact (Prod.mk.injEq _ _ _ _).mp h |>.1
      · have hs : st = t := (Prod.mk.injEq _ _ _ _).mp h |>.2.symm ▸ rfl
        simp [((Prod.mk.injEq _ _ _ _).mp h).2]
    · rcases ih (n + 1) h with ⟨j, hj, hget⟩
      exact ⟨j + 1, by omega, by simpa using hget⟩

/-- The selected entry is among the candidates. -/
lemma pickMinSeq_mem : ∀ (xs : List (Nat × ApprovalStep)) (x), pickMinSeq x xs ∈ x :: xs := by
  intro xs
  induction xs with
  | nil => intro x; simp [pickMinSeq]
  | cons y ys ih =>
    intro x
    have hstep : pickMinSeq x (y :: ys) =
        pickMinSeq (if y.2.sequence < x.2.sequence then y else x) ys := rfl
    have h := ih (if y.2.sequence < x.2.sequence then y else x)
    rw [hstep]
    rcases List.mem_cons.mp h with h1 | h1
    · rw [h1]
      by_cases hc : y.2.sequence < x.2.sequence
      · simp [hc]
      · simp [hc]
    · simp [h1]

/-- The selected entry has the minimal sequence among the candidates. -/
lemma pickMinSeq_le : ∀ (xs : List (Nat × ApprovalStep)) (x),
    ∀ z ∈ x :: xs, (pickMinSeq x xs).2.sequence ≤ z.2.sequence := by
  intro xs
  induction xs with
  | nil => intro x z hz; simp at hz; simp [pickMinSeq, hz]
  | cons y ys ih =>
    intro x z hz
    have hstep : pickMinSeq x (y :: ys) =
        pickMinSeq (if y.2.sequence < x.2.sequence then y else x) ys := rfl
    rw [hstep]
    have hx' : (if y.2.sequence < x.2.sequence then y else x).2.sequence ≤ x.2.sequence ∧
        (if y.2.sequence < x.2.sequence then y else x).2.sequence ≤ y.2.sequence := by
      by_cases hc : y.2.sequence < x.2.sequence <;> simp [hc] <;> omega
    have hself := ih (if y.2.sequence < x.2.sequence then y else x)
      (if y.2.sequence < x.2.sequence then y else x) (List.mem_cons_self _ _)
    rcases List.mem_cons.mp hz with h1 | h1
    · subst h1
      exact le_trans hself hx'.1
    · rcases List.mem_cons.mp h1 with h2 | h2
      · subst h2
        exact le_trans hself hx'.2
      · exact ih (if y.2.sequence < x.2.sequence then y else x) z
          (List.mem_cons.mpr (Or.inr h2))

/-- An empty query result means no step of the user is PENDING. -/
lemma firstPendingOf_eq_none_iff (e : Expense) (u : Nat) :
    firstPendingOf e u = none ↔
      ∀ s ∈ e.steps, ¬(s.approver = u ∧ s.status = StepStatus.PENDING) := by
  unfold firstPendingOf
  cases hf : (enumFrom 0 e.steps).filter
      (fun p => p.2.approver == u && p.2.status == StepStatus.PENDING) with
  | nil =>
    simp only [true_iff]
    intro s hs hcon
    have hmem : s ∈ (enumFrom 0 e.steps).map Prod.snd := by
      rw [enumFrom_map_snd]; exact hs
    rcases List.mem_map.mp hmem with ⟨p, hp, hps⟩
    have hpred := List.filter_eq_nil_iff.mp hf p hp
    rw [hps] at hpred
    simp [hcon.1, hcon.2] at hpred
  | cons x xs =>
    simp only [false_iff, reduceCtorEq]
    intro hall
    have hx : x ∈ (enumFrom 0 e.steps).filter
        (fun p => p.2.approver == u && p.2.status == StepStatus.PENDING) := by
      rw [hf]; exact List.mem_cons_self _ _
    have hxmem := List.mem_filter.mp hx
    have hsnd : x.2 ∈ e.steps := by
      have : x.2 ∈ (enumFrom 0 e.steps).map Prod.snd := List.mem_map_of_mem _ hxmem.1
      rwa [enumFrom_map_snd] at this
    have := hall x.2 hsnd
    simp only [Bool.and_eq_true, beq_iff_eq] at hxmem
    exact this ⟨hxmem.2.1, hxmem.2.2⟩

/-- A successful query returns the index and content of a PENDING step of
the user whose sequence is minimal among the user's PENDING steps. -/
lemma firstPendingOf_eq_some (e : Expense) (u : Nat) (i : Nat) (st : ApprovalStep)
    (h : firstPendingOf e u = some (i, st)) :
    e.steps.get? i = some st ∧ st.approver = u ∧ st.status = StepStatus.PENDING ∧
      ∀ s ∈ e.steps, s.approver = u → s.status = StepStatus.PENDING →
        st.sequence ≤ s.sequence := by
  unfold firstPendingOf at h
  cases hf : (enumFrom 0 e.steps).filter
      (fun p => p.2.approver == u && p.2.status == StepStatus.PENDING) with
  | nil => rw [hf] at h; exact absurd h (by simp)
  | cons x xs =>
    rw [hf] at h
    have hpick : pickMinSeq x xs = (i, st) := by
      injection h
    have hmem : (i, st) ∈ x :: xs := hpick ▸ pickMinSeq_mem xs x
    have hmemf : (i, st) ∈ (enumFrom 0 e.steps).filter
        (fun p => p.2.approver == u && p.2.status == StepStatus.PENDING) := by
      rw [hf]; exact hmem
    have hsplit := List.mem_filter.mp hmemf
    have hpred := hsplit.2
    simp only [Bool.and_eq_true, beq_iff_eq] at hpred
    rcases mem_enumFrom e.steps 0 hsplit.1 with ⟨j, hij, hget⟩
    refine ⟨?_, hpred.1, hpred.2, ?_⟩
    · rwa [show i = j by omega]
    · intro s hs hap hpend
      have hmem2 : s ∈ (enumFrom 0 e.steps).map Prod.snd := by
        rw [enumFrom_map_snd]; exact hs
      rcases List.mem_map.mp hmem2 with ⟨p, hp, hps⟩
      have hpf : p ∈ (enumFrom 0 e.steps).filter
          (fun q => q.2.approver == u && q.2.status == StepStatus.PENDING) := by
        refine List.mem_filter.mpr ⟨hp, ?_⟩
        simp [hps, hap, hpend]
      rw [hf] at hpf
      have := pickMinSeq_le xs x p hpf
      rw [hpick] at this
      simpa [hps] using this

/-! Characterization lemmas for the policy evaluator. -/

/-- The mode condition evaluate_policy_and_maybe_finalize tests on a
nonempty chain. -/
def policyCond (policy : ApprovalPolicy) (steps : List ApprovalStep) : Bool :=
  (policy.mode == Mode.SPECIFIC && specificApproverOk policy steps) ||
  (policy.mode == Mode.PERCENTAGE &&
    percentSatisfied policy (approvedCount steps) steps.length) ||
  (policy.mode == Mode.PERCENTAGE_OR_SPECIFIC &&
    (specificApproverOk policy steps ||
     percentSatisfied policy (approvedCount steps) steps.length))

/-- Without a policy the evaluator is the identity. -/
lemma evaluate_no_policy (e : Expense) (now : Nat) (hp : e.policy = none) :
    evaluate_policy_and_maybe_finalize e now = e := by
  unfold evaluate_policy_and_maybe_finalize
  rw [hp]

/-- Without steps the evaluator is the identity. -/
lemma evaluate_no_steps (e : Expense) (now : Nat) (hs : e.steps = []) :
    evaluate_policy_and_maybe_finalize e now = e := by
  unfold evaluate_policy_and_maybe_finalize
  cases hp : e.policy with
  | none => rfl
  | some pol => simp [hs]

/-- On a policy and a nonempty chain the evaluator finalizes exactly when
the mode condition holds. -/
lemma evaluate_eq_cond (e : Expense) (pol : ApprovalPolicy) (now : Nat)
    (hp : e.policy = some pol) (hs : ¬e.steps.isEmpty = true) :
    evaluate_policy_and_maybe_finalize e now =
      if policyCond pol e.steps then finalize_approved e now else e := by
  unfold evaluate_policy_and_maybe_finalize
  rw [hp]
  simp only [hs]
  cases h1 : (pol.mode == Mode.SPECIFIC && specificApproverOk pol e.steps) <;>
  cases h2 : (pol.mode == Mode.PERCENTAGE &&
      percentSatisfied pol (approvedCount e.steps) e.steps.length) <;>
  cases h3 : (pol.mode == Mode.PERCENTAGE_OR_SPECIFIC &&
      (specificApproverOk pol e.steps ||
       percentSatisfied pol (approvedCount e.steps) e.steps.length)) <;>
  simp [policyCond, h1, h2, h3, hs]

/-- Closing the PENDING steps does not change the approved count. -/
lemma approvedCount_skip_pending (l : List ApprovalStep) (now : Nat) :
    approvedCount (l.map (fun s =>
      if s.status == StepStatus.PENDING then
        { s with status := StepStatus.SKIPPED, acted_at := some now }
      else s)) = approvedCount l := by
  induction l with
  | nil => rfl
  | cons s ss ih =>
    have hst : ((if s.status == StepStatus.PENDING then
        { s with status := StepStatus.SKIPPED, acted_at := some now }
      else s).status == StepStatus.APPROVED) = (s.status == StepStatus.APPROVED) := by
      cases hs : s.status <;> simp [hs]
    unfold approvedCount
    simp only [List.map_cons, List.filter_cons, hst]
    cases hc : (s.status == StepStatus.APPROVED) <;>
      simpa [hc] using ih

/-- Closing the PENDING steps does not change the specific-approver
condition. -/
lemma specificApproverOk_skip_pending (pol : ApprovalPolicy) (l : List ApprovalStep)
    (now : Nat) :
    specificApproverOk pol (l.map (fun s =>
      if s.status == StepStatus.PENDING then
        { s with status := StepStatus.SKIPPED, acted_at := some now }
      else s)) = specificApproverOk pol l := by
  unfold specificApproverOk
  cases pol.specific_approver with
  | none => rfl
  | some sa =>
    dsimp only
    induction l with
    | nil => rfl
    | cons s ss ih =>
      have hst : (((if s.status == StepStatus.PENDING then
            { s with status := StepStatus.SKIPPED, acted_at := some now }
          else s).approver == sa) &&
          ((if s.status == StepStatus.PENDING then
            { s with status := StepStatus.SKIPPED, acted_at := some now }
          else s).status == StepStatus.APPROVED)) =
          ((s.approver == sa) && (s.status == StepStatus.APPROVED)) := by
        cases hs : s.status <;>
          simp [hs, show (StepStatus.SKIPPED == StepStatus.APPROVED) = false from rfl,
            show (StepStatus.PENDING == StepStatus.APPROVED) = false from rfl]
      simp only [List.map_cons, List.any_cons, hst, ih]

/-- Closing the PENDING steps does not change the mode condition. -/
lemma policyCond_skip_pending (pol : ApprovalPolicy) (l : List ApprovalStep) (now : Nat) :
    policyCond pol (l.map (fun s =>
      if s.status == StepStatus.PENDING then
        { s with status := StepStatus.SKIPPED, acted_at := some now }
      else s)) = policyCond pol l := by
  unfold policyCond
  rw [approvedCount_skip_pending, specificApproverOk_skip_pending, List.length_map]

/-- Finalizing twice is finalizing once. -/
lemma finalize_approved_idem (e : Expense) (n1 n2 : Nat) :
    finalize_approved (finalize_approved e n1) n2 = finalize_approved e n1 := by
  unfold finalize_approved
  simp only [List.map_map]
  congr 1
  apply List.map_congr_left
  intro s _
  cases hs : s.status <;> simp [hs, Function.comp]

/-- The policy evaluator is idempotent on every state. -/
lemma evaluate_idem (e : Expense) (n1 n2 : Nat) :
    evaluate_policy_and_maybe_finalize (evaluate_policy_and_maybe_finalize e n1) n2 =
      evaluate_policy_and_maybe_finalize e n1 := by
  cases hp : e.policy with
  | none =>
    rw [evaluate_no_policy e n1 hp, evaluate_no_policy e n2 hp]
  | some pol =>
    by_cases hs : e.steps.isEmpty = true
    · have hnil : e.steps = [] := List.isEmpty_iff.mp hs
      rw [evaluate_no_steps e n1 hnil, evaluate_no_steps e n2 hnil]
    · rw [evaluate_eq_cond e pol n1 hp hs]
      cases hc : policyCond pol e.steps
      · simp only [Bool.false_eq_true, if_false]
        rw [evaluate_eq_cond e pol n2 hp hs, hc]
        simp
      · simp only [if_true]
        have hp' : (finalize_approved e n1).policy = some pol := hp
        have hmap : ∀ (f : ApprovalStep → ApprovalStep),
            (e.steps.map f).isEmpty = e.steps.isEmpty := by
          intro f; cases e.steps <;> rfl
        have hs' : ¬(finalize_approved e n1).steps.isEmpty = true := by
          unfold finalize_approved
          dsimp only
          rw [hmap]
          exact hs
        rw [evaluate_eq_cond (finalize_approved e n1) pol n2 hp' hs']
        have hcond : policyCond pol (finalize_approved e n1).steps = true := by
          unfold finalize_approved
          rw [policyCond_skip_pending]
          exact hc
        rw [hcond]
        simp [finalize_approved_idem]

/-- The rational comparison of the source agrees with truncating
natural-number division against an integer threshold. -/
lemma percentSatisfied_iff_floor (pol : ApprovalPolicy) (a t : Nat) (ht : 0 < t) :
    (percentSatisfied pol a t = true ↔
      0 < pol.percentage_required ∧ pol.percentage_required ≤ 100 * a / t) := by
  unfold percentSatisfied
  have ht' : (0 : ℚ) < (t : ℚ) := by exact_mod_cast ht
  have hkey : ((pol.percentage_required : ℚ) ≤ ((a : ℚ) * 100) / (t : ℚ)) ↔
      pol.percentage_required ≤ 100 * a / t := by
    rw [le_div_iff ht', Nat.le_div_iff_mul_le ht]
    constructor
    · intro h
      have : pol.percentage_required * t ≤ a * 100 := by exact_mod_cast h
      omega
    · intro h
      have : pol.percentage_required * t ≤ a * 100 := by omega
      exact_mod_cast this
  simp only [Bool.and_eq_true, decide_eq_true_eq, hkey]
  constructor
  · rintro ⟨⟨h1, -⟩, h3⟩
    exact ⟨h1, h3⟩
  · rintro ⟨h1, h2⟩
    exact ⟨⟨h1, ht⟩, h2⟩

/-- Sequence numbers produced by the step constructor are consecutive from
the starting counter. -/
lemma mkSteps_map_sequence (l : List Nat) : ∀ k,
    (mkSteps k l).map (fun s => s.sequence) = List.range' k l.length := by
  induction l with
  | nil => intro k; rfl
  | cons a rest ih =>
    intro k
    simp only [mkSteps, List.map_cons, List.length_cons, List.range'_succ]
    rw [ih]

/-- The step constructor creates one step per assignee. -/
lemma mkSteps_length (l : List Nat) : ∀ k, (mkSteps k l).length = l.length := by
  induction l with
  | nil => intro k; rfl
  | cons a rest ih => intro k; simp [mkSteps, ih]

/-- The evaluator leaves a non-PENDING step entry unchanged. -/
lemma evaluate_preserves_resolved_at (e : Expense) (now i : Nat) (s : ApprovalStep)
    (hg : e.steps.get? i = some s) (hne : ¬s.status = StepStatus.PENDING) :
    (evaluate_policy_and_maybe_finalize e now).steps.get? i = some s := by
  cases hp : e.policy with
  | none => rw [evaluate_no_policy e now hp]; exact hg
  | some pol =>
    by_cases hse : e.steps.isEmpty = true
    · rw [evaluate_no_steps e now (List.isEmpty_iff.mp hse)]; exact hg
    · rw [evaluate_eq_cond e pol now hp hse]
      cases hc : policyCond pol e.steps
      · simpa using hg
      · simp only [if_true]
        unfold finalize_approved
        dsimp only
        rw [List.get?_map, hg]
        have hbeq : (s.status == StepStatus.PENDING) = false := by
          cases hss : s.status <;> simp_all
        simp [hbeq]
        intro hss
        exact absurd hss hne

/-! Claim theorems. -/

/-- C3: for a chain with at least one step, the PERCENTAGE policy
condition holds iff percentage_required is positive and the truncating
integer percentage floor(100 * approved / total) reaches it (no rounding
up), and the very same condition is the percentage branch of
PERCENTAGE_OR_SPECIFIC mode. -/
theorem percentage_condition_floor_semantics (pol : ApprovalPolicy) (a t : Nat)
    (ht : 0 < t) :
    (percentSatisfied pol a t = true ↔
      0 < pol.percentage_required ∧ pol.percentage_required ≤ 100 * a / t) ∧
    (∀ e now, e.policy = some pol → pol.mode = Mode.PERCENTAGE →
        ¬e.steps.isEmpty = true →
      evaluate_policy_and_maybe_finalize e now =
        if percentSatisfied pol (approvedCount e.steps) e.steps.length then
          finalize_approved e now
        else e) ∧
    (∀ e now, e.policy = some pol → pol.mode = Mode.PERCENTAGE_OR_SPECIFIC →
        ¬e.steps.isEmpty = true →
      evaluate_policy_and_maybe_finalize e now =
        if specificApproverOk pol e.steps ||
            percentSatisfied pol (approvedCount e.steps) e.steps.length then
          finalize_approved e now
        else e) := by
  refine ⟨percentSatisfied_iff_floor pol a t ht, ?_, ?_⟩
  · intro e now hp hm hse
    rw [evaluate_eq_cond e pol now hp hse]
    have hcond : policyCond pol e.steps =
        percentSatisfied pol (approvedCount e.steps) e.steps.length := by
      unfold policyCond
      rw [hm]
      simp [show (Mode.PERCENTAGE == Mode.SPECIFIC) = false from rfl,
        show (Mode.PERCENTAGE == Mode.PERCENTAGE) = true from rfl,
        show (Mode.PERCENTAGE == Mode.PERCENTAGE_OR_SPECIFIC) = false from rfl]
    rw [hcond]
  · intro e now hp hm hse
    rw [evaluate_eq_cond e pol now hp hse]
    have hcond : policyCond pol e.steps =
        (specificApproverOk pol e.steps ||
         percentSatisfied pol (approvedCount e.steps) e.steps.length) := by
      unfold policyCond
      rw [hm]
      simp [show (Mode.PERCENTAGE_OR_SPECIFIC == Mode.SPECIFIC) = false from rfl,
        show (Mode.PERCENTAGE_OR_SPECIFIC == Mode.PERCENTAGE) = false from rfl,
        show (Mode.PERCENTAGE_OR_SPECIFIC == Mode.PERCENTAGE_OR_SPECIFIC) = true from rfl]
    rw [hcond]

/-- C5: the policy evaluator is idempotent: a second invocation on an
already-finalized expense changes nothing further, and it is a no-op
without a configured policy or without steps. -/
theorem policy_evaluator_idempotent_and_noop (e : Expense) (n1 n2 n3 n4 : Nat) :
    ((e.status = ExpenseStatus.APPROVED ∨ e.status = ExpenseStatus.REJECTED) →
      evaluate_policy_and_maybe_finalize (evaluate_policy_and_maybe_finalize e n1) n2 =
        evaluate_policy_and_maybe_finalize e n1) ∧
    (e.policy = none → evaluate_policy_and_maybe_finalize e n3 = e) ∧
    (e.steps = [] → evaluate_policy_and_maybe_finalize e n4 = e) :=
  ⟨fun _ => evaluate_idem e n1 n2,
   fun hp => evaluate_no_policy e n3 hp,
   fun hs => evaluate_no_steps e n4 hs⟩

/-- C6: at submission the builder sets status APPROVED exactly when zero
steps were created (in particular with zero stages and no manager), and
PENDING otherwise. -/
theorem build_sets_approved_iff_no_steps (company : Company) (submitter : User) :
    ((build_approval_steps_for_expense company submitter).status =
        ExpenseStatus.APPROVED ↔
      (build_approval_steps_for_expense company submitter).steps = []) ∧
    ((build_approval_steps_for_expense company submitter).status =
        ExpenseStatus.APPROVED ∨
     (build_approval_steps_for_expense company submitter).status =
        ExpenseStatus.PENDING) ∧
    (company.approver_stages = [] → submitter.manager = none →
      (build_approval_steps_for_expense company submitter).status =
          ExpenseStatus.APPROVED ∧
      (build_approval_steps_for_expense company submitter).steps = []) := by
  unfold build_approval_steps_for_expense
  dsimp only
  refine ⟨?_, ?_, ?_⟩
  · cases h : mkSteps 1 (chainAssignees company submitter) <;> simp [h]
  · cases h : mkSteps 1 (chainAssignees company submitter) <;> simp [h]
  · intro h1 h2
    have hchain : chainAssignees company submitter = [] := by
      unfold chainAssignees
      rw [h1, h2]
      cases company.is_manager_first_approver <;> simp [sortStages]
    simp [hchain, mkSteps]

/-- C7: the built chain's sequence numbers are exactly 1..N with no gaps
and no duplicates, where N is the number of resolved assignees (manager
first when configured, then the stages that resolved). -/
theorem build_sequences_are_one_to_n (company : Company) (submitter : User) :
    (build_approval_steps_for_expense company submitter).steps.map
        (fun s => s.sequence) =
      List.range' 1 ((build_approval_steps_for_expense company submitter).steps.length) ∧
    (build_approval_steps_for_expense company submitter).steps.length =
      (chainAssignees company submitter).length := by
  unfold build_approval_steps_for_expense
  dsimp only
  refine ⟨?_, ?_⟩
  · rw [mkSteps_map_sequence, mkSteps_length]
  · rw [mkSteps_length]

/-- C8: a PERCENTAGE policy with percentage_required = 0 never finalizes:
the evaluator leaves the whole expense state unchanged. -/
theorem percentage_zero_never_finalizes (e : Expense) (pol : ApprovalPolicy) (now : Nat)
    (hp : e.policy = some pol) (hm : pol.mode = Mode.PERCENTAGE)
    (h0 : pol.percentage_required = 0) :
    evaluate_policy_and_maybe_finalize e now = e := by
  by_cases hse : e.steps.isEmpty = true
  · exact evaluate_no_steps e now (List.isEmpty_iff.mp hse)
  · rw [evaluate_eq_cond e pol now hp hse]
    have hcond : policyCond pol e.steps = false := by
      unfold policyCond percentSatisfied
      rw [hm, h0]
      simp [show (Mode.PERCENTAGE == Mode.SPECIFIC) = false from rfl,
        show (Mode.PERCENTAGE == Mode.PERCENTAGE_OR_SPECIFIC) = false from rfl]
    rw [hcond]
    simp

/-- C9: approve_step returns failure and leaves the state untouched when
the expense is not PENDING or when the acting user holds no PENDING step
(the empty query is exactly the absence of a PENDING step of the user). -/
theorem approve_step_fails_without_actionable_step (e : Expense) (u : Nat) (c : String)
    (now : Nat) :
    (¬e.status = ExpenseStatus.PENDING → approve_step e u c now = (false, e)) ∧
    ((∀ s ∈ e.steps, ¬(s.approver = u ∧ s.status = StepStatus.PENDING)) →
      approve_step e u c now = (false, e)) ∧
    (firstPendingOf e u = none ↔
      ∀ s ∈ e.steps, ¬(s.approver = u ∧ s.status = StepStatus.PENDING)) := by
  refine ⟨?_, ?_, firstPendingOf_eq_none_iff e u⟩
  · intro h
    unfold approve_step
    rw [if_pos h]
  · intro h
    unfold approve_step
    by_cases hst : e.status = ExpenseStatus.PENDING
    · rw [if_neg (not_not_intro hst), (firstPendingOf_eq_none_iff e u).mpr h]
    · rw [if_pos hst]

/-- C10: admin_override_expense on a DRAFT expense with a terminal target
returns true and sets the status directly to that target; no check of the
current status is performed. -/
theorem admin_override_ignores_current_status (e : Expense) (c : String) (now : Nat)
    (target : ExpenseStatus) (hd : e.status = ExpenseStatus.DRAFT)
    (ht : target = ExpenseStatus.APPROVED ∨ target = ExpenseStatus.REJECTED) :
    (admin_override_expense e target c now).fst = true ∧
    (admin_override_expense e target c now).snd.status = target := by
  unfold admin_override_expense
  have hguard : ¬(target ≠ ExpenseStatus.APPROVED ∧ target ≠ ExpenseStatus.REJECTED) := by
    rcases ht with h | h <;> simp [h]
  rw [if_neg hguard]
  exact ⟨rfl, rfl⟩

/-- Reduction of a successful rejection to its explicit result state. -/
lemma reject_expense_eq (e : Expense) (u : Nat) (c : String) (now : Nat)
    (i : Nat) (st : ApprovalStep) (hfirst : firstPendingOf e u = some (i, st)) :
    reject_expense e u c now =
      (true,
       { status := ExpenseStatus.REJECTED
         steps := (e.steps.set i
             { st with
               status := StepStatus.REJECTED
               comment := c
               acted_at := some now }).map (fun s =>
           if s.status == StepStatus.PENDING then
             { s with
               status := StepStatus.REJECTED
               comment := s.comment ++
                 (if c ≠ "" then "\n[Admin override] " ++ c else "")
               acted_at := some now }
           else s)
         policy := e.policy }) := by
  unfold reject_expense
  rw [hfirst]
  rfl

/-- Reduction of a successful approval to its explicit result state. -/
lemma approve_step_eq (e : Expense) (u : Nat) (c : String) (now : Nat)
    (i : Nat) (st : ApprovalStep) (hstat : e.status = ExpenseStatus.PENDING)
    (hfirst : firstPendingOf e u = some (i, st)) :
    approve_step e u c now =
      (let e2 := evaluate_policy_and_maybe_finalize
          { e with
            steps := e.steps.set i
              { st with
                status := StepStatus.APPROVED
                comment := c
                acted_at := some now } } now
       if e2.status = ExpenseStatus.APPROVED then (true, e2)
       else if e2.steps.any (fun s => s.status == StepStatus.PENDING) then (true, e2)
       else (true, { e2 with status := ExpenseStatus.APPROVED })) := by
  unfold approve_step
  rw [if_neg (not_not_intro hstat), hfirst]

/-- C4: on a PENDING expense, a successful rejection by a user holding a
PENDING step returns true, marks that user's earliest PENDING step
REJECTED with the comment and timestamp, sets the expense status
REJECTED, closes every step that was still PENDING as REJECTED (never
SKIPPED), however many were pending, and never consults the policy
evaluator: the result does not depend on the configured policy. -/
theorem reject_is_final_and_closes_all (e : Expense) (u : Nat) (c : String) (now : Nat)
    (i : Nat) (st : ApprovalStep)
    (hstat : e.status = ExpenseStatus.PENDING)
    (hfirst : firstPendingOf e u = some (i, st)) :
    (reject_expense e u c now).fst = true ∧
    (reject_expense e u c now).snd.status = ExpenseStatus.REJECTED ∧
    st.approver = u ∧ st.status = StepStatus.PENDING ∧
    (∀ s ∈ e.steps, s.approver = u → s.status = StepStatus.PENDING →
      st.sequence ≤ s.sequence) ∧
    ((reject_expense e u c now).snd.steps.get? i =
      some { st with status := StepStatus.REJECTED, comment := c, acted_at := some now }) ∧
    (∀ j s, e.steps.get? j = some s → s.status = StepStatus.PENDING →
      ∃ s2, (reject_expense e u c now).snd.steps.get? j = some s2 ∧
        s2.status = StepStatus.REJECTED) ∧
    (∀ pol, reject_expense { e with policy := pol } u c now =
      ((reject_expense e u c now).fst,
       { (reject_expense e u c now).snd with policy := pol })) := by
  have hsome := firstPendingOf_eq_some e u i st hfirst
  rcases List.get?_eq_some.mp hsome.1 with ⟨hi, -⟩
  have hr := reject_expense_eq e u c now i st hfirst
  refine ⟨?_, ?_, hsome.2.1, hsome.2.2.1, hsome.2.2.2, ?_, ?_, ?_⟩
  · rw [hr]
  · rw [hr]
  · rw [hr]
    dsimp only
    rw [List.get?_map, List.get?_set_eq_of_lt _ hi]
    rfl
  · intro j s hj hp
    by_cases hji : j = i
    · subst hji
      have hjs : e.steps.get? j = some st := hsome.1
      refine ⟨{ st with
          status := StepStatus.REJECTED
          comment := c
          acted_at := some now }, ?_, rfl⟩
      rw [hr]
      dsimp only
      rw [List.get?_map, List.get?_set_eq_of_lt _ hi]
      rfl
    · refine ⟨{ s with
          status := StepStatus.REJECTED
          comment := s.comment ++ (if c ≠ "" then "\n[Admin override] " ++ c else "")
          acted_at := some now }, ?_, rfl⟩
      rw [hr]
      dsimp only
      rw [List.get?_map, List.get?_set_ne _ _ (fun h => hji h.symm), hj]
      have hb : (s.status == StepStatus.PENDING) = true := by simp [hp]
      simp [hb]
      intro hcon
      exact absurd hp hcon
  · intro pol
    have hfirst2 : firstPendingOf { e with policy := pol } u = some (i, st) := hfirst
    rw [reject_expense_eq { e with policy := pol } u c now i st hfirst2, hr]

/-- C2 (amended): on a PENDING expense a user holding a PENDING step
approves successfully: approve_step returns true and marks the user's own
earliest PENDING step APPROVED, with no requirement that earlier-sequence
steps of other approvers be resolved first (sequence gating across
approvers is not enforced). -/
theorem approve_succeeds_on_own_earliest_pending (e : Expense) (u : Nat) (c : String)
    (now : Nat) (i : Nat) (st : ApprovalStep)
    (hstat : e.status = ExpenseStatus.PENDING)
    (hfirst : firstPendingOf e u = some (i, st)) :
    (approve_step e u c now).fst = true ∧
    ((approve_step e u c now).snd.steps.get? i =
      some { st with status := StepStatus.APPROVED, comment := c, acted_at := some now }) ∧
    st.approver = u ∧ st.status = StepStatus.PENDING ∧
    (∀ s ∈ e.steps, s.approver = u → s.status = StepStatus.PENDING →
      st.sequence ≤ s.sequence) := by
  have hsome := firstPendingOf_eq_some e u i st hfirst
  rcases List.get?_eq_some.mp hsome.1 with ⟨hi, -⟩
  have hset : (e.steps.set i
      { st with status := StepStatus.APPROVED, comment := c, acted_at := some now }).get? i =
      some { st with status := StepStatus.APPROVED, comment := c, acted_at := some now } :=
    List.get?_set_eq_of_lt _ hi
  have hpres := evaluate_preserves_resolved_at
    { e with
      steps := e.steps.set i
        { st with status := StepStatus.APPROVED, comment := c, acted_at := some now } }
    now i
    { st with status := StepStatus.APPROVED, comment := c, acted_at := some now }
    hset (by intro h; exact StepStatus.noConfusion h)
  rw [approve_step_eq e u c now i st hstat hfirst]
  dsimp only
  refine ⟨?_, ?_, hsome.2.1, hsome.2.2.1, hsome.2.2.2⟩
  · split
    · rfl
    · split
      · rfl
      · rfl
  · split
    · exact hpres
    · split
      · exact hpres
      · exact hpres

/-- C2 counterexample: with user 20 holding the sequence-2 step of three
PENDING steps whose sequence-1 step belongs to approver 10 and is still
PENDING, approve_step for user 20 returns true and approves the
sequence-2 step, contradicting the claim that it fails and mutates
nothing. -/
theorem approve_out_of_order_succeeds :
    (approve_step
      ⟨ExpenseStatus.PENDING,
        [⟨1, 10, StepStatus.PENDING, "", none⟩,
         ⟨2, 20, StepStatus.PENDING, "", none⟩,
         ⟨3, 30, StepStatus.PENDING, "", none⟩], none⟩ 20 "" 0).fst = true ∧
    (approve_step
      ⟨ExpenseStatus.PENDING,
        [⟨1, 10, StepStatus.PENDING, "", none⟩,
         ⟨2, 20, StepStatus.PENDING, "", none⟩,
         ⟨3, 30, StepStatus.PENDING, "", none⟩], none⟩ 20 "" 0).snd.steps.map
        (fun s => s.status) =
      [StepStatus.PENDING, StepStatus.APPROVED, StepStatus.PENDING] := by
  constructor
  · decide
  · decide

/-- C1 (amended): once an expense is APPROVED or REJECTED, approve_step
fails and mutates nothing, and reject_expense fails and mutates nothing
whenever no step is PENDING any more (which holds for expenses finalized
by the workflow); admin_override_expense, however, is not guarded by the
current status: it still reports success and sets the expense status to
its terminal target, so it can alter a finalized expense. -/
theorem finalized_guard_behavior (e : Expense) (u : Nat) (c : String) (now : Nat)
    (target : ExpenseStatus)
    (hfin : e.status = ExpenseStatus.APPROVED ∨ e.status = ExpenseStatus.REJECTED) :
    approve_step e u c now = (false, e) ∧
    ((∀ s ∈ e.steps, ¬s.status = StepStatus.PENDING) →
      reject_expense e u c now = (false, e)) ∧
    (target = ExpenseStatus.APPROVED ∨ target = ExpenseStatus.REJECTED →
      (admin_override_expense e target c now).fst = true ∧
      (admin_override_expense e target c now).snd.status = target) := by
  refine ⟨?_, ?_, ?_⟩
  · have hne : ¬e.status = ExpenseStatus.PENDING := by
      rcases hfin with h | h <;> simp [h]
    unfold approve_step
    rw [if_pos hne]
  · intro h
    have hnone : firstPendingOf e u = none :=
      (firstPendingOf_eq_none_iff e u).mpr (fun s hs hc => h s hs hc.2)
    unfold reject_expense
    rw [hnone]
  · intro ht
    have hguard : ¬(target ≠ ExpenseStatus.APPROVED ∧ target ≠ ExpenseStatus.REJECTED) := by
      rcases ht with h | h <;> simp [h]
    unfold admin_override_expense
    rw [if_neg hguard]
    exact ⟨rfl, rfl⟩

/-- C1 counterexample: admin_override_expense on an APPROVED expense with
target REJECTED reports success and flips the status to REJECTED, so the
claim that no workflow operation alters a finalized expense is false. -/
theorem admin_override_alters_finalized :
    ((⟨ExpenseStatus.APPROVED, [], none⟩ : Expense).status = ExpenseStatus.APPROVED) ∧
    (admin_override_expense ⟨ExpenseStatus.APPROVED, [], none⟩
        ExpenseStatus.REJECTED "" 0).fst = true ∧
    (admin_override_expense ⟨ExpenseStatus.APPROVED, [], none⟩
        ExpenseStatus.REJECTED "" 0).snd.status = ExpenseStatus.REJECTED := by
  refine ⟨rfl, ?_, ?_⟩ <;> decide

/-! Witnesses: each hypothesis-bearing claim theorem applied at a concrete
input. -/

/-- Witness for the amended C1 theorem at a concrete finalized expense. -/
theorem finalized_guard_behavior_witness :
    approve_step
      ⟨ExpenseStatus.APPROVED, [⟨1, 5, StepStatus.APPROVED, "", none⟩], none⟩ 5 "" 0 =
      (false, ⟨ExpenseStatus.APPROVED, [⟨1, 5, StepStatus.APPROVED, "", none⟩], none⟩) ∧
    reject_expense
      ⟨ExpenseStatus.APPROVED, [⟨1, 5, StepStatus.APPROVED, "", none⟩], none⟩ 5 "" 0 =
      (false, ⟨ExpenseStatus.APPROVED, [⟨1, 5, StepStatus.APPROVED, "", none⟩], none⟩) ∧
    (admin_override_expense
      ⟨ExpenseStatus.APPROVED, [⟨1, 5, StepStatus.APPROVED, "", none⟩], none⟩
      ExpenseStatus.REJECTED "" 0).fst = true :=
  ⟨(finalized_guard_behavior
      ⟨ExpenseStatus.APPROVED, [⟨1, 5, StepStatus.APPROVED, "", none⟩], none⟩
      5 "" 0 ExpenseStatus.REJECTED (Or.inl rfl)).1,
   (finalized_guard_behavior
      ⟨ExpenseStatus.APPROVED, [⟨1, 5, StepStatus.APPROVED, "", none⟩], none⟩
      5 "" 0 ExpenseStatus.REJECTED (Or.inl rfl)).2.1 (by decide),
   ((finalized_guard_behavior
      ⟨ExpenseStatus.APPROVED, [⟨1, 5, StepStatus.APPROVED, "", none⟩], none⟩
      5 "" 0 ExpenseStatus.REJECTED (Or.inl rfl)).2.2 (Or.inr rfl)).1⟩

/-- Witness for the amended C2 theorem: user 20 at sequence 2 of 3
approves while sequence 1 (approver 10) is still PENDING. -/
theorem approve_succeeds_on_own_earliest_pending_witness :
    (approve_step
      ⟨ExpenseStatus.PENDING,
        [⟨1, 10, StepStatus.PENDING, "", none⟩,
         ⟨2, 20, StepStatus.PENDING, "", none⟩,
         ⟨3, 30, StepStatus.PENDING, "", none⟩], none⟩ 20 "ok" 7).fst = true ∧
    (approve_step
      ⟨ExpenseStatus.PENDING,
        [⟨1, 10, StepStatus.PENDING, "", none⟩,
         ⟨2, 20, StepStatus.PENDING, "", none⟩,
         ⟨3, 30, StepStatus.PENDING, "", none⟩], none⟩ 20 "ok" 7).snd.steps.get? 1 =
      some ⟨2, 20, StepStatus.APPROVED, "ok", some 7⟩ :=
  ⟨(approve_succeeds_on_own_earliest_pending
      ⟨ExpenseStatus.PENDING,
        [⟨1, 10, StepStatus.PENDING, "", none⟩,
         ⟨2, 20, StepStatus.PENDING, "", none⟩,
         ⟨3, 30, StepStatus.PENDING, "", none⟩], none⟩ 20 "ok" 7 1
      ⟨2, 20, StepStatus.PENDING, "", none⟩ rfl (by decide)).1,
   (approve_succeeds_on_own_earliest_pending
      ⟨ExpenseStatus.PENDING,
        [⟨1, 10, StepStatus.PENDING, "", none⟩,
         ⟨2, 20, StepStatus.PENDING, "", none⟩,
         ⟨3, 30, StepStatus.PENDING, "", none⟩], none⟩ 20 "ok" 7 1
      ⟨2, 20, StepStatus.PENDING, "", none⟩ rfl (by decide)).2.1⟩

/-- Witness for C3 at percentage_required 50 with 2 of 3 steps approved. -/
theorem percentage_condition_floor_semantics_witness :
    0 < 3 ∧
    (percentSatisfied ⟨Mode.PERCENTAGE, 50, none⟩ 2 3 = true ↔
      0 < (⟨Mode.PERCENTAGE, 50, none⟩ : ApprovalPolicy).percentage_required ∧
      (⟨Mode.PERCENTAGE, 50, none⟩ : ApprovalPolicy).percentage_required ≤ 100 * 2 / 3) :=
  ⟨by decide,
   (percentage_condition_floor_semantics ⟨Mode.PERCENTAGE, 50, none⟩ 2 3 (by decide)).1⟩

/-- Witness for C4: approver 10 rejects the first of two pending steps. -/
theorem reject_is_final_and_closes_all_witness :
    (reject_expense
      ⟨ExpenseStatus.PENDING,
        [⟨1, 10, StepStatus.PENDING, "", none⟩,
         ⟨2, 20, StepStatus.PENDING, "", none⟩], none⟩ 10 "no" 3).fst = true ∧
    (reject_expense
      ⟨ExpenseStatus.PENDING,
        [⟨1, 10, StepStatus.PENDING, "", none⟩,
         ⟨2, 20, StepStatus.PENDING, "", none⟩], none⟩ 10 "no" 3).snd.status =
      ExpenseStatus.REJECTED :=
  ⟨(reject_is_final_and_closes_all
      ⟨ExpenseStatus.PENDING,
        [⟨1, 10, StepStatus.PENDING, "", none⟩,
         ⟨2, 20, StepStatus.PENDING, "", none⟩], none⟩ 10 "no" 3 0
      ⟨1, 10, StepStatus.PENDING, "", none⟩ rfl (by decide)).1,
   (reject_is_final_and_closes_all
      ⟨ExpenseStatus.PENDING,
        [⟨1, 10, StepStatus.PENDING, "", none⟩,
         ⟨2, 20, StepStatus.PENDING, "", none⟩], none⟩ 10 "no" 3 0
      ⟨1, 10, StepStatus.PENDING, "", none⟩ rfl (by decide)).2.1⟩

/-- Witness for C5 at a concrete REJECTED expense with a SPECIFIC policy. -/
theorem policy_evaluator_idempotent_and_noop_witness :
    evaluate_policy_and_maybe_finalize
      (evaluate_policy_and_maybe_finalize
        ⟨ExpenseStatus.REJECTED,
          [⟨1, 10, StepStatus.APPROVED, "", some 1⟩,
           ⟨2, 20, StepStatus.REJECTED, "", some 2⟩],
          some ⟨Mode.SPECIFIC, 0, some 10⟩⟩ 1) 2 =
    evaluate_policy_and_maybe_finalize
      ⟨ExpenseStatus.REJECTED,
        [⟨1, 10, StepStatus.APPROVED, "", some 1⟩,
         ⟨2, 20, StepStatus.REJECTED, "", some 2⟩],
        some ⟨Mode.SPECIFIC, 0, some 10⟩⟩ 1 :=
  (policy_evaluator_idempotent_and_noop
    ⟨ExpenseStatus.REJECTED,
      [⟨1, 10, StepStatus.APPROVED, "", some 1⟩,
       ⟨2, 20, StepStatus.REJECTED, "", some 2⟩],
      some ⟨Mode.SPECIFIC, 0, some 10⟩⟩ 1 2 3 4).1 (Or.inr rfl)

/-- Witness for C6 at a company with no stages and a submitter without a
manager. -/
theorem build_sets_approved_iff_no_steps_witness :
    (build_approval_steps_for_expense ⟨true, [], [], none⟩ ⟨1, none⟩).status =
      ExpenseStatus.APPROVED ∧
    (build_approval_steps_for_expense ⟨true, [], [], none⟩ ⟨1, none⟩).steps = [] :=
  (build_sets_approved_iff_no_steps ⟨true, [], [], none⟩ ⟨1, none⟩).2.2 rfl rfl

/-- Witness for C8 at a fully approved single-step chain under a
PERCENTAGE policy with percentage_required 0. -/
theorem percentage_zero_never_finalizes_witness :
    evaluate_policy_and_maybe_finalize
      ⟨ExpenseStatus.PENDING, [⟨1, 10, StepStatus.APPROVED, "", none⟩],
        some ⟨Mode.PERCENTAGE, 0, none⟩⟩ 0 =
    ⟨ExpenseStatus.PENDING, [⟨1, 10, StepStatus.APPROVED, "", none⟩],
      some ⟨Mode.PERCENTAGE, 0, none⟩⟩ :=
  percentage_zero_never_finalizes
    ⟨ExpenseStatus.PENDING, [⟨1, 10, StepStatus.APPROVED, "", none⟩],
      some ⟨Mode.PERCENTAGE, 0, none⟩⟩ ⟨Mode.PERCENTAGE, 0, none⟩ 0 rfl rfl rfl

/-- Witness for C9 at a DRAFT expense with no steps. -/
theorem approve_step_fails_without_actionable_step_witness :
    approve_step ⟨ExpenseStatus.DRAFT, [], none⟩ 1 "" 0 =
      (false, ⟨ExpenseStatus.DRAFT, [], none⟩) :=
  (approve_step_fails_without_actionable_step
    ⟨ExpenseStatus.DRAFT, [], none⟩ 1 "" 0).1 (by decide)

/-- Witness for C10 at a DRAFT expense overridden to APPROVED. -/
theorem admin_override_ignores_current_status_witness :
    (admin_override_expense ⟨ExpenseStatus.DRAFT, [], none⟩
        ExpenseStatus.APPROVED "" 0).fst = true ∧
    (admin_override_expense ⟨ExpenseStatus.DRAFT, [], none⟩
        ExpenseStatus.APPROVED "" 0).snd.status = ExpenseStatus.APPROVED :=
  admin_override_ignores_current_status ⟨ExpenseStatus.DRAFT, [], none⟩ "" 0
    ExpenseStatus.APPROVED rfl (Or.inl rfl)
